import Mathlib

/-!
Verification of the vidsearchserver orchestration pipeline.

The definitions below are a shallow embedding of the JavaScript source
(`src/server.js`, first variant, plus the extraction agents of
`src/unnamed/part_007` and `src/unnamed/part_004`).  Remote services
(Twelve Labs, Gemini, the filesystem) are modelled as oracle parameters:
each remote call site receives its outcome (`Except`) from the
environment, and the embedded functions reproduce the control flow of
the source exactly.  JavaScript numbers are modelled as exact rationals.
-/

namespace VidSearch

/-- JavaScript `Math.round` for nonnegative inputs: round half up. -/
def jsRound (q : ℚ) : ℤ := ⌊q + 1 / 2⌋

/-! ## Retry executor (`retryApiCall`, src/server.js lines 39-54)

A JavaScript `Error` as inspected by the executor: a message plus the
optional `error.response?.status` and `error.statusCode` fields. -/

structure JsError where
  message : String
  responseStatus : Option Nat
  statusCode : Option Nat
deriving DecidableEq

/-- Classification in the executor:
`error.response?.status === 429 || error.statusCode === 429`. -/
def isRateLimit (e : JsError) : Bool :=
  e.responseStatus == some 429 || e.statusCode == some 429

/-- Shallow embedding of `retryApiCall(fn, retries, delay)`.  The wrapped
operation is an oracle `f` giving the outcome of each attempt (attempt
numbers start at `attempt`).  Returns the final outcome together with
the list of sleep durations performed, in order.  As in the source, the
error classification (`isRateLimit`) is computed only to pick a log
message and does not influence the control flow. -/
def retryApiCall (f : Nat → Except JsError α) :
    Nat → Nat → Nat → Except JsError α × List Nat
  | attempt, 0, _ =>
    match f attempt with
    | .ok v => (.ok v, [])
    | .error e => (.error e, [])
  | attempt, r + 1, delay =>
    match f attempt with
    | .ok v => (.ok v, [])
    | .error _ =>
      let res := retryApiCall f (attempt + 1) r (delay * 2)
      (res.1, delay :: res.2)

/-! ## Indexing poll loop (src/server.js lines 141-164) -/

/-- Status reported by one `tlClient.tasks.retrieve` poll.  `pending`
covers the non-terminal states (`queued`, `processing`, ...): the loop
treats every status other than `ready` and `failed` alike. -/
inductive TaskStatus where
  | ready (videoId : String)
  | failed
  | pending
deriving DecidableEq

/-- Outcome of the polling loop: the video identifier on `ready`, the
distinct indexing-failure error, the timeout error after 60 attempts,
or an error thrown by the poll call itself (retry budget exhausted). -/
inductive PollResult where
  | ok (videoId : String)
  | failedStatus
  | timeout
  | thrown (msg : String)
deriving DecidableEq

/-- Message of the cosmetic progress events emitted while polling. -/
def pollMsg : String := "Marengo Vision AI Scanning..."

/-- The fraction `0.3 + m * 0.01` reached after `m` cosmetic increments
of `pollProgress`. -/
def pollFrac (m : Nat) : ℚ := (30 + m) / 100

/-- One server-sent event of the run (`sendEvent` in the source).  The
`complete` payload is projected to the claim-relevant fields of the
final report: `scores.overall` and `metadata.hashtags`. -/
inductive SSEEvent where
  | progress (message : String) (fraction : ℚ)
  | complete (overall : ℚ) (hashtags : List String)
  | error (message : String)
deriving DecidableEq

/-- The poll loop `for (let i = 0; i < 60; i++) ...` of the source:
`s` is the oracle for poll `i` (an `Except` since the retried retrieve
can itself throw), `fuel` the remaining attempts, `i` the attempt
counter and `k` the number of cosmetic increments applied so far (the
source keeps `pollProgress = 0.3 + k * 0.01` and increments while
`pollProgress < 0.45`, i.e. while `k < 15`).  Returns the cosmetic
progress events, the loop outcome, and the number of polls executed. -/
def pollAux (s : Nat → Except String TaskStatus) :
    Nat → Nat → Nat → List SSEEvent × PollResult × Nat
  | 0, _, _ => ([], .timeout, 0)
  | fuel + 1, i, k =>
    match s i with
    | .error e => ([], .thrown e, 1)
    | .ok (.ready v) => ([], .ok v, 1)
    | .ok .failed => ([], .failedStatus, 1)
    | .ok .pending =>
      if k < 15 then
        let r := pollAux s fuel (i + 1) (k + 1)
        (.progress pollMsg (pollFrac (k + 1)) :: r.1, r.2.1, r.2.2 + 1)
      else
        let r := pollAux s fuel (i + 1) k
        (r.1, r.2.1, r.2.2 + 1)

/-- Function `awaitReady`: the outcome of the 60-attempt poll loop started at
`pollProgress = 0.3` (`k = 0`). -/
def awaitReady (s : Nat → Except String TaskStatus) : PollResult :=
  (pollAux s 60 0 0).2.1

/-- The outcome component of the poll loop on its own (the cosmetic
progress counter `k` does not influence it); proven equal to
`(pollAux s fuel i k).2.1` below. -/
def pollResOnly (s : Nat → Except String TaskStatus) : Nat → Nat → PollResult
  | 0, _ => .timeout
  | fuel + 1, i =>
    match s i with
    | .error e => .thrown e
    | .ok (.ready v) => .ok v
    | .ok .failed => .failedStatus
    | .ok .pending => pollResOnly s fuel (i + 1)

/-! ## Scoring response and hashtag merge (src/server.js lines 265-289) -/

/-- The claim-relevant shape of the parsed Gemini response:
`scores.overall` and `metadata?.hashtags` (`none` collapses an absent
`metadata` object and an absent `hashtags` field, which the source
treats identically). -/
structure AnalysisData where
  overall : ℚ
  metadataHashtags : Option (List String)
deriving DecidableEq

/-- The `JSON.parse` failure fallback of the source:
`{ scores: { overall: 50 }, analysis: { ... } }` — no `metadata`. -/
def parseFallback : AnalysisData := ⟨50, none⟩

/-- The hashtag merge: if `metadata?.hashtags` is missing or has fewer
than 3 entries, replace it by `[...detectedHashtags, ...(hashtags || [])]`
truncated to 10 entries; otherwise keep it.  (The source performs no
deduplication.) -/
def mergeHashtags (detectedHashtags : List String)
    (metaTags : Option (List String)) : List String :=
  if (metaTags.getD []).length < 3 then
    (detectedHashtags ++ metaTags.getD []).take 10
  else
    metaTags.getD []

/-! ## The `/analyze-video` run (src/server.js lines 100-307) -/

/-- Environment of one request: the caller input and the outcome of each
remote call site.  `parseScore` models `JSON.parse` on the cleaned
Gemini text (`none` = parse failure). -/
structure RunInput where
  hasFile : Bool
  indexReady : Bool
  taskCreate : Except String Unit
  pollStatus : Nat → Except String TaskStatus
  analyzeCall : Except String String
  gistCall : Except String (List String)
  geminiCall : Except String String
  parseScore : String → Option AnalysisData

/-- Observable outcome of one request: HTTP status of the response head,
the ordered server-sent events, whether the stream was ended, whether
`fs.unlink` was invoked on the temporary file, and how many remote
operations were issued (each `retryApiCall`-wrapped operation and the
final video delete count as one). -/
structure RunOutput where
  httpStatus : Nat
  events : List SSEEvent
  streamClosed : Bool
  unlinkCalled : Bool
  remoteCalls : Nat
deriving DecidableEq

/-- The `err.message || "Analysis failed"` fallback of the catch block. -/
def errMsg (e : String) : String :=
  if e = "" then "Analysis failed" else e

/-- The body of the `try` block plus its `catch`: everything after the
guard.  `Promise.all([analyze, gist])` is modelled with the analyze
rejection taking precedence.  Every exit path ends the stream and
unlinks the temporary file, mirroring the source. -/
def runPipeline (env : RunInput) : RunOutput :=
  match env.taskCreate with
  | .error e =>
    ⟨200, [.progress pollMsg (3 / 10), .error (errMsg e)], true, true, 1⟩
  | .ok _ =>
    match (pollAux env.pollStatus 60 0 0).2.1 with
    | .thrown e =>
      ⟨200, .progress pollMsg (3 / 10) :: (pollAux env.pollStatus 60 0 0).1
          ++ [.error (errMsg e)],
        true, true, 1 + (pollAux env.pollStatus 60 0 0).2.2⟩
    | .failedStatus =>
      ⟨200, .progress pollMsg (3 / 10) :: (pollAux env.pollStatus 60 0 0).1
          ++ [.error "Twelve Labs processing failed"],
        true, true, 1 + (pollAux env.pollStatus 60 0 0).2.2⟩
    | .timeout =>
      ⟨200, .progress pollMsg (3 / 10) :: (pollAux env.pollStatus 60 0 0).1
          ++ [.error "Processing timeout"],
        true, true, 1 + (pollAux env.pollStatus 60 0 0).2.2⟩
    | .ok _videoId =>
      match env.analyzeCall, env.gistCall with
      | .error e, _ =>
        ⟨200, .progress pollMsg (3 / 10) :: (pollAux env.pollStatus 60 0 0).1
            ++ [.progress "Measuring Retention Hooks..." (1 / 2),
                .error (errMsg e)],
          true, true, 1 + (pollAux env.pollStatus 60 0 0).2.2 + 2⟩
      | .ok _, .error e =>
        ⟨200, .progress pollMsg (3 / 10) :: (pollAux env.pollStatus 60 0 0).1
            ++ [.progress "Measuring Retention Hooks..." (1 / 2),
                .error (errMsg e)],
          true, true, 1 + (pollAux env.pollStatus 60 0 0).2.2 + 2⟩
      | .ok _rawText, .ok detectedHashtags =>
        match env.geminiCall with
        | .error e =>
          ⟨200, .progress pollMsg (3 / 10) :: (pollAux env.pollStatus 60 0 0).1
              ++ [.progress "Measuring Retention Hooks..." (1 / 2),
                  .progress "Analyzing Audio Mixing..." (7 / 10),
                  .progress "Calculating Viral Potential..." (9 / 10),
                  .error (errMsg e)],
            true, true, 1 + (pollAux env.pollStatus 60 0 0).2.2 + 3⟩
        | .ok text =>
          ⟨200, .progress pollMsg (3 / 10) :: (pollAux env.pollStatus 60 0 0).1
              ++ [.progress "Measuring Retention Hooks..." (1 / 2),
                  .progress "Analyzing Audio Mixing..." (7 / 10),
                  .progress "Calculating Viral Potential..." (9 / 10),
                  .complete ((env.parseScore text).getD parseFallback).overall
                    (mergeHashtags detectedHashtags
                      ((env.parseScore text).getD parseFallback).metadataHashtags)],
            true, true, 1 + (pollAux env.pollStatus 60 0 0).2.2 + 4⟩

/-- The whole handler: SSE headers are written (status 200) before any
validation; the guard `!req.file || !GLOBAL_INDEX_ID` emits a single
error event, ends the stream, unlinks the file if one was saved, and
returns before any remote call. -/
def analyzeVideo (env : RunInput) : RunOutput :=
  if env.hasFile && env.indexReady then
    runPipeline env
  else
    ⟨200, [.error "System not ready or missing video file"],
      true, env.hasFile, 0⟩

/-- Fraction carried by a progress event. -/
def fracOf : SSEEvent → Option ℚ
  | .progress _ q => some q
  | .complete _ _ => none
  | .error _ => none

/-- Terminal events are `complete` and `error`. -/
def isTerminalEv : SSEEvent → Bool
  | .progress _ _ => false
  | .complete _ _ => true
  | .error _ => true

/-- The temporary file leaks iff one was saved and `fs.unlink` was never
invoked on it. -/
def fileLeaked (env : RunInput) (out : RunOutput) : Bool :=
  env.hasFile && !out.unlinkCalled

/-! ## Forensic defect search (src/unnamed/part_007 lines 86-129) -/

/-- One ranked search match: similarity score and clip time range
(`score`, `start`, `end` in the source; `end` is a Lean keyword). -/
structure SearchMatch where
  score : ℚ
  start : ℚ
  endTime : ℚ
deriving DecidableEq

/-- One entry of the fixed defect-query catalogue. -/
structure ForensicQuery where
  query : String
  label : String
deriving DecidableEq

/-- The `negativeQueries` catalogue of the forensic agent. -/
def negativeQueries : List ForensicQuery :=
  [⟨"dark screen poorly lit black screen", "Bad Lighting"⟩,
   ⟨"shaky camera unstable footage", "Unstable Camera"⟩,
   ⟨"blurry out of focus", "Focus Issues"⟩,
   ⟨"static screen loading screen", "Static Visuals"⟩]

/-- One emitted defect signal (`issues.push({...})` in the source). -/
structure ForensicIssue where
  type : String
  timestamp : String
  confidence : ℚ
  details : String
deriving DecidableEq

/-- The timestamp string of a match:
`Math.floor(best.start) + "s-" + Math.floor(best.end) + "s"`. -/
def timestampRange (m : SearchMatch) : String :=
  toString ⌊m.start⌋ ++ "s-" ++ toString ⌊m.endTime⌋ ++ "s"

/-- Processing of a single catalogue entry inside the `Promise.all` map:
search the video, take the top match (`results.data[0]`), and emit an
issue only when its score strictly exceeds 75; a failed search is
swallowed (`catch` ignored) and contributes nothing. -/
def forensicOne (search : String → Except Unit (List SearchMatch))
    (item : ForensicQuery) : Option ForensicIssue :=
  match search item.query with
  | .error _ => none
  | .ok searchData =>
    match searchData.head? with
    | none => none
    | some bestMatch =>
      if bestMatch.score > 75 then
        some ⟨item.label, timestampRange bestMatch, bestMatch.score,
          "Confidence: " ++ toString (jsRound bestMatch.score) ++ "%"⟩
      else
        none

/-- Function `performForensicSearch`: run every catalogue query and collect the
emitted issues (catalogue order). -/
def performForensicSearch
    (search : String → Except Unit (List SearchMatch)) : List ForensicIssue :=
  negativeQueries.filterMap (forensicOne search)

/-! ## Pacing analyzer (src/unnamed/part_004 lines 112-149,
src/unnamed/part_007 lines 133-177; the two are identical) -/

/-- One time-aligned transcript segment (`value`, `start`, `end`). -/
structure TranscriptSegment where
  value : String
  start : ℚ
  endTime : ℚ
deriving DecidableEq

/-- Word count of one segment: `curr.value.split(" ").length`. -/
def segmentWords (seg : TranscriptSegment) : Nat :=
  (seg.value.splitOn " ").length

/-- The pacing signal `{ wpm, deadAirCount, hasAudio }`. -/
structure PacingResult where
  wpm : ℤ
  deadAirCount : Nat
  hasAudio : Bool
deriving DecidableEq

/-- Function `analyzePacing(indexId, videoId, duration)`: the transcription fetch
is an oracle (`.error` = the fetch threw; `.ok none` = a response with
no `data` field).  No transcript or an empty one yields the no-speech
signal without raising; otherwise words-per-minute and dead-air gaps
(strictly more than 2.5 s between consecutive segments) are computed. -/
def analyzePacing (transcript : Except Unit (Option (List TranscriptSegment)))
    (duration : ℚ) : PacingResult :=
  match transcript with
  | .error _ => ⟨0, 0, false⟩
  | .ok none => ⟨0, 0, false⟩
  | .ok (some data) =>
    if data.length = 0 then ⟨0, 0, false⟩
    else
      ⟨if 0 < duration / 60 then
          jsRound
            (((data.foldl (fun acc curr => acc + segmentWords curr) 0 : Nat) : ℚ) /
              (duration / 60))
        else 0,
        (data.zip data.tail).countP
          (fun p => decide (5 / 2 < p.2.start - p.1.endTime)),
        true⟩

/-- Total transcript word count, stated as in the specification. -/
def totalWords (segs : List TranscriptSegment) : Nat :=
  (segs.map segmentWords).sum

/-- Number of consecutive segment pairs whose gap strictly exceeds
2.5 seconds, stated as in the specification. -/
def deadAirEvents (segs : List TranscriptSegment) : Nat :=
  (segs.zip segs.tail).countP
    (fun p => decide (5 / 2 < p.2.start - p.1.endTime))

/-! ## Concrete inputs used by the witnesses -/

/-- An operation that fails twice and then succeeds with `7`. -/
def opFailTwice : Nat → Except JsError Nat
  | 0 => .error ⟨"boom 0", none, none⟩
  | 1 => .error ⟨"boom 1", none, none⟩
  | _ => .ok 7

/-- A malformed-input error: HTTP 400, not a rate limit. -/
def err400 : JsError := ⟨"Bad Request: malformed input", some 400, none⟩

/-- An operation that fails once with the non-retryable `err400` and
then succeeds with `7`. -/
def opBadRequest : Nat → Except JsError Nat
  | 0 => .error err400
  | _ => .ok 7

/-- A run whose remote calls all succeed, whose first poll reports
`ready`, and whose Gemini response fails to parse. -/
def envParseFail : RunInput where
  hasFile := true
  indexReady := true
  taskCreate := .ok ()
  pollStatus := fun _ => .ok (.ready "vid-1")
  analyzeCall := .ok "raw analysis"
  gistCall := .ok ["#fitness", "#gym"]
  geminiCall := .ok "not json"
  parseScore := fun _ => none

/-- A request that arrives with no video file attached. -/
def envNoFile : RunInput where
  hasFile := false
  indexReady := true
  taskCreate := .ok ()
  pollStatus := fun _ => .ok .pending
  analyzeCall := .ok ""
  gistCall := .ok []
  geminiCall := .ok ""
  parseScore := fun _ => none

/-- A search oracle: the "blurry out of focus" query has a confident
top match, every other query returns no matches. -/
def searchBlur : String → Except Unit (List SearchMatch) :=
  fun q => if q = "blurry out of focus" then .ok [⟨90, 3 / 2, 7 / 2⟩] else .ok []

/-- The catalogue entry used by the C5 witness. -/
def queryBlur : ForensicQuery := ⟨"blurry out of focus", "Focus Issues"⟩

/-- A two-segment transcript with a single 4-second gap. -/
def transcriptW : List TranscriptSegment :=
  [⟨"hello world", 0, 2⟩, ⟨"again", 6, 8⟩]

/-! ## Retry executor: proofs -/

theorem retryApiCall_ok_of_failures (f : Nat → Except JsError α) :
    ∀ k a retries delay v, k ≤ retries →
      (∀ j, j < k → ∃ e, f (a + j) = Except.error e) →
      f (a + k) = Except.ok v →
      retryApiCall f a retries delay =
        (Except.ok v, (List.range k).map fun j => delay * 2 ^ j) := by
  intro k
  induction k with
  | zero =>
    intro a retries delay v _ _ hsucc
    rw [Nat.add_zero] at hsucc
    rcases retries with _ | r <;> simp [retryApiCall, hsucc]
  | succ k ih =>
    intro a retries delay v hk hfail hsucc
    obtain ⟨e0, he0⟩ := hfail 0 (Nat.succ_pos k)
    rw [Nat.add_zero] at he0
    rcases retries with _ | r
    · omega
    · have hfail2 : ∀ j, j < k → ∃ e, f (a + 1 + j) = Except.error e := by
        intro j hj
        obtain ⟨e, he⟩ := hfail (j + 1) (by omega)
        refine ⟨e, ?_⟩
        rw [show a + 1 + j = a + (j + 1) by omega]
        exact he
      have hsucc2 : f (a + 1 + k) = Except.ok v := by
        rw [show a + 1 + k = a + (k + 1) by omega]
        exact hsucc
      have ihh := ih (a + 1) r (delay * 2) v (by omega) hfail2 hsucc2
      simp only [retryApiCall, he0, ihh]
      rw [List.range_succ_eq_map]
      simp only [List.map_cons, List.map_map, pow_zero, Nat.mul_one,
        Prod.mk.injEq, true_and]
      refine congrArg _ (List.map_congr_left fun j _ => ?_)
      show delay * 2 * 2 ^ j = delay * 2 ^ (j + 1)
      rw [pow_succ]
      ring

theorem retryApiCall_all_fail (f : Nat → Except JsError α) :
    ∀ retries a delay e,
      (∀ j, j < retries → ∃ e2, f (a + j) = Except.error e2) →
      f (a + retries) = Except.error e →
      retryApiCall f a retries delay =
        (Except.error e, (List.range retries).map fun j => delay * 2 ^ j) := by
  intro retries
  induction retries with
  | zero =>
    intro a delay e _ hlast
    rw [Nat.add_zero] at hlast
    simp [retryApiCall, hlast]
  | succ r ih =>
    intro a delay e hfail hlast
    obtain ⟨e0, he0⟩ := hfail 0 (Nat.succ_pos r)
    rw [Nat.add_zero] at he0
    have hfail2 : ∀ j, j < r → ∃ e2, f (a + 1 + j) = Except.error e2 := by
      intro j hj
      obtain ⟨e2, he2⟩ := hfail (j + 1) (by omega)
      refine ⟨e2, ?_⟩
      rw [show a + 1 + j = a + (j + 1) by omega]
      exact he2
    have hlast2 : f (a + 1 + r) = Except.error e := by
      rw [show a + 1 + r = a + (r + 1) by omega]
      exact hlast
    have ihh := ih (a + 1) (delay * 2) e hfail2 hlast2
    simp only [retryApiCall, he0, ihh]
    rw [List.range_succ_eq_map]
    simp only [List.map_cons, List.map_map, pow_zero, Nat.mul_one,
      Prod.mk.injEq, true_and]
    refine congrArg _ (List.map_congr_left fun j _ => ?_)
    show delay * 2 * 2 ^ j = delay * 2 ^ (j + 1)
    rw [pow_succ]
    ring

/-- C3.  Retry executor with attempt budget `N` and initial delay `d`:
if the wrapped operation fails exactly `k < N` times and then succeeds,
`retryApiCall` returns the success result and performs exactly `k`
sleeps of durations `d, 2d, 4d, ...` (each double the previous); if
every attempt fails, the error thrown by the last attempt is propagated
unchanged (after `N` sleeps of the same doubling sequence). -/
theorem retryApiCall_backoff_spec (f : Nat → Except JsError α) (N d : Nat) :
    (∀ k v, k < N → (∀ j, j < k → ∃ e, f j = Except.error e) →
      f k = Except.ok v →
      retryApiCall f 0 N d = (Except.ok v, (List.range k).map fun j => d * 2 ^ j))
  ∧ (∀ e, (∀ j, j < N → ∃ e2, f j = Except.error e2) →
      f N = Except.error e →
      retryApiCall f 0 N d =
        (Except.error e, (List.range N).map fun j => d * 2 ^ j)) := by
  constructor
  · intro k v hk hfail hsucc
    refine retryApiCall_ok_of_failures f k 0 N d v (by omega) ?_ ?_
    · intro j hj
      simpa using hfail j hj
    · simpa using hsucc
  · intro e hfail hlast
    refine retryApiCall_all_fail f N 0 d e ?_ ?_
    · intro j hj
      simpa using hfail j hj
    · simpa using hlast

/-- Witness for C3: an operation failing twice then succeeding, with
budget 3 and initial delay 100, returns the success and slept 100 then
200 milliseconds. -/
theorem retryApiCall_backoff_spec_witness :
    retryApiCall opFailTwice 0 3 100 = (Except.ok 7, [100, 200]) := by
  have hfail : ∀ j, j < 2 → ∃ e, opFailTwice j = Except.error e := by
    intro j hj
    rcases j with _ | _ | j
    · exact ⟨⟨"boom 0", none, none⟩, rfl⟩
    · exact ⟨⟨"boom 1", none, none⟩, rfl⟩
    · omega
  have h := (retryApiCall_backoff_spec opFailTwice 3 100).1 2 7 (by omega) hfail rfl
  rw [h]
  norm_num [List.range_succ]

/-- C4 counterexample: a non-retryable error (HTTP 400, malformed
input) is classified as not-rate-limit, yet the executor still retries:
it sleeps once and runs the operation again, returning the second
attempt's success.  This refutes the claim that only rate-limit and
transient errors lead to a retry. -/
theorem retry_nonretryable_retried :
    isRateLimit err400 = false ∧
    retryApiCall opBadRequest 0 3 1000 = (Except.ok 7, [1000]) :=
  ⟨rfl, rfl⟩

/-- C4 amended.  The executor computes the rate-limit classification
from the status/code fields, but the classification only selects the
log message: while attempts remain, every error leads to a retry,
regardless of its status/code fields (operations lacking such fields
are likewise retried). -/
theorem retry_retries_every_error (f : Nat → Except JsError α)
    (N d : Nat) (e : JsError) (v : α)
    (h0 : f 0 = Except.error e) (h1 : f 1 = Except.ok v) (hN : 0 < N) :
    retryApiCall f 0 N d = (Except.ok v, [d]) := by
  have hfail : ∀ j, j < 1 → ∃ e2, f (0 + j) = Except.error e2 := by
    intro j hj
    rcases j with _ | j
    · exact ⟨e, h0⟩
    · omega
  have h := retryApiCall_ok_of_failures f 1 0 N d v (by omega) hfail
    (by simpa using h1)
  rw [h]
  norm_num [List.range_succ]

/-- Witness for the amended C4: the 400-error operation is retried and
succeeds on the second attempt after a single sleep. -/
theorem retry_retries_every_error_witness :
    retryApiCall opBadRequest 0 3 1000 = (Except.ok 7, [1000]) :=
  retry_retries_every_error opBadRequest 3 1000 err400 7 rfl rfl (by omega)

/-! ## Hashtag merge: proofs -/

/-- C8 counterexample: with validated hashtags `["a"]` (fewer than 3)
and detected topics `["a", "b", "c"]`, the final list is
`["a", "b", "c", "a"]`, which contains a duplicate — the merge performs
no deduplication. -/
theorem mergeHashtags_duplicates :
    mergeHashtags ["a", "b", "c"] (some ["a"]) = ["a", "b", "c", "a"] ∧
    ¬ List.Nodup ["a", "b", "c", "a"] := by
  constructor
  · rfl
  · decide

/-- C8 amended.  When the validated hashtag list has fewer than 3
entries, the final list is the detected hashtags/topics followed by the
validated hashtags, truncated to 10 entries; duplicates are not
removed.  In particular the final length is `min (detected + validated)
10`, so it is capped at 10, and 1 validated hashtag plus 6 detected
topics yield exactly 7 entries. -/
theorem mergeHashtags_backfill (detected l : List String)
    (h : l.length < 3) :
    mergeHashtags detected (some l) = (detected ++ l).take 10 ∧
    (mergeHashtags detected (some l)).length =
      min (detected.length + l.length) 10 ∧
    (mergeHashtags detected (some l)).length ≤ 10 ∧
    (detected.length = 6 → l.length = 1 →
      (mergeHashtags detected (some l)).length = 7) := by
  have heq : mergeHashtags detected (some l) = (detected ++ l).take 10 := by
    unfold mergeHashtags
    simp [h]
  refine ⟨heq, ?_, ?_, ?_⟩
  · rw [heq, List.length_take, List.length_append]
    omega
  · rw [heq, List.length_take]
    omega
  · intro h6 h1
    rw [heq, List.length_take, List.length_append, h6, h1]
    omega

/-- Witness for the amended C8: 6 detected topics and 1 validated
hashtag produce a final list of exactly 7 entries. -/
theorem mergeHashtags_backfill_witness :
    (mergeHashtags ["t1", "t2", "t3", "t4", "t5", "t6"] (some ["x"])).length = 7 :=
  (mergeHashtags_backfill ["t1", "t2", "t3", "t4", "t5", "t6"] ["x"]
    (by decide)).2.2.2 rfl rfl

/-! ## Cleanup and guard: proofs -/

theorem runPipeline_unlink (env : RunInput) :
    (runPipeline env).unlinkCalled = true := by
  unfold runPipeline
  repeat' split
  all_goals rfl

/-- C9.  On every exit path of a run — the early guard rejection, a
task-creation failure, an indexing failure, a timeout, a failure of any
downstream remote call, and normal completion — the temporary video
file does not survive the run: either none was saved or `fs.unlink`
was invoked on it. -/
theorem cleanup_every_path (env : RunInput) :
    fileLeaked env (analyzeVideo env) = false := by
  unfold fileLeaked analyzeVideo
  by_cases hg : (env.hasFile && env.indexReady) = true
  · rw [if_pos hg, runPipeline_unlink]
    simp
  · rw [if_neg hg]
    simp

/-- Witness for C9 at a concrete run (all remote calls succeed, the
scoring parse fails): the temporary file does not leak. -/
theorem cleanup_every_path_witness :
    fileLeaked envParseFail (analyzeVideo envParseFail) = false :=
  cleanup_every_path envParseFail

/-- C10.  A request rejected by the guard (missing video file, or the
global index was never initialized) produces exactly one `error` event,
a closed stream, an `fs.unlink` call exactly when a file was saved,
and zero remote calls — all under HTTP status 200, because the SSE
headers are written before validation. -/
theorem guard_rejects_immediately (env : RunInput)
    (h : (env.hasFile && env.indexReady) = false) :
    analyzeVideo env =
      ⟨200, [SSEEvent.error "System not ready or missing video file"],
        true, env.hasFile, 0⟩ := by
  unfold analyzeVideo
  rw [if_neg]
  simp [h]

/-- Witness for C10: a request with no video file is rejected with one
error event, status 200, no unlink and no remote calls. -/
theorem guard_rejects_immediately_witness :
    analyzeVideo envNoFile =
      ⟨200, [SSEEvent.error "System not ready or missing video file"],
        true, false, 0⟩ :=
  guard_rejects_immediately envNoFile rfl

/-! ## Forensic defect search: proofs -/

/-- C5.  For every defect query of the catalogue, the forensic agent
emits a signal iff the top-ranked match of that query's search exceeds
the score threshold 75; the emitted signal carries the top match's time
range and score; a query with no qualifying top match (or a failed
search) contributes nothing and raises nothing; and the agent's result
is exactly the collection of the per-query signals. -/
theorem forensic_threshold_spec
    (search : String → Except Unit (List SearchMatch))
    (item : ForensicQuery) (_hmem : item ∈ negativeQueries) :
    ((forensicOne search item).isSome ↔
      ∃ ms best, search item.query = Except.ok ms ∧ ms.head? = some best ∧
        75 < best.score)
  ∧ (∀ iss, forensicOne search item = some iss →
      ∃ ms best, search item.query = Except.ok ms ∧ ms.head? = some best ∧
        75 < best.score ∧ iss.type = item.label ∧
        iss.timestamp = timestampRange best ∧ iss.confidence = best.score)
  ∧ performForensicSearch search = negativeQueries.filterMap (forensicOne search)
    := by
  refine ⟨?_, ?_, rfl⟩
  · unfold forensicOne
    rcases hs : search item.query with u | ms
    · simp
    · dsimp only
      rcases hh : ms.head? with _ | b
      · simp [hh]
      · dsimp only
        by_cases hb : b.score > 75
        · rw [if_pos hb]
          simp only [Option.isSome_some, true_iff]
          exact ⟨ms, b, rfl, hh, hb⟩
        · rw [if_neg hb]
          simp only [Option.isSome_none, Bool.false_eq_true, false_iff]
          rintro ⟨ms2, b2, hok, hh2, hb2⟩
          obtain rfl : ms = ms2 := by injection hok
          rw [hh] at hh2
          obtain rfl : b = b2 := by injection hh2
          exact hb hb2
  · intro iss h
    unfold forensicOne at h
    rcases hs : search item.query with u | ms <;> rw [hs] at h
    · cases h
    · dsimp only at h
      rcases hh : ms.head? with _ | b <;> rw [hh] at h
      · cases h
      · dsimp only at h
        by_cases hb : b.score > 75
        · rw [if_pos hb] at h
          obtain rfl := (Option.some.injEq _ _).mp h
          exact ⟨ms, b, rfl, hh, hb, rfl, rfl, rfl⟩
        · rw [if_neg hb] at h
          cases h

/-- Witness for C5: under a search oracle whose "blurry out of focus"
query has a 90-confidence top match, the agent emits a signal for that
query. -/
theorem forensic_threshold_spec_witness :
    (forensicOne searchBlur queryBlur).isSome ↔
      ∃ ms best, searchBlur queryBlur.query = Except.ok ms ∧
        ms.head? = some best ∧ 75 < best.score :=
  (forensic_threshold_spec searchBlur queryBlur (by decide)).1

/-! ## Pacing analyzer: proofs -/

theorem foldl_add_segmentWords (l : List TranscriptSegment) :
    ∀ n : Nat, l.foldl (fun acc curr => acc + segmentWords curr) n =
      n + totalWords l := by
  induction l with
  | nil =>
    intro n
    simp [totalWords]
  | cons a tl ih =>
    intro n
    rw [List.foldl_cons, ih]
    unfold totalWords
    rw [List.map_cons, List.sum_cons]
    omega

/-- C6.  The pacing analyzer returns the no-speech signal (`wpm 0`,
`deadAirCount 0`, `hasAudio false`) whenever the transcript fetch
fails, returns no data, or returns an empty segment list — without
raising (the embedding is a total function).  Otherwise it returns
words-per-minute equal to the rounded quotient of the total transcript
word count by the duration in minutes, and counts dead-air events as
consecutive-segment gaps strictly exceeding 2.5 seconds. -/
theorem analyzePacing_spec
    (t : Except Unit (Option (List TranscriptSegment))) (d : ℚ) (hd : 0 < d) :
    ((t = Except.error () ∨ t = Except.ok none ∨ t = Except.ok (some [])) →
      analyzePacing t d = ⟨0, 0, false⟩)
  ∧ (∀ segs, t = Except.ok (some segs) → segs ≠ [] →
      analyzePacing t d =
        ⟨jsRound ((totalWords segs : ℚ) * 60 / d), deadAirEvents segs, true⟩)
    := by
  constructor
  · rintro (rfl | rfl | rfl) <;> simp [analyzePacing]
  · rintro segs rfl hne
    unfold analyzePacing
    dsimp only
    rw [if_neg (by simpa using hne)]
    have hdm : (0 : ℚ) < d / 60 := by positivity
    rw [if_pos hdm]
    have hw : segs.foldl (fun acc curr => acc + segmentWords curr) 0 =
        totalWords segs := by
      simpa using foldl_add_segmentWords segs 0
    rw [hw]
    have hdiv : (totalWords segs : ℚ) / (d / 60) =
        (totalWords segs : ℚ) * 60 / d := div_div_eq_mul_div _ _ _
    rw [hdiv]
    rfl

/-- Witness for C6: a two-segment transcript ("hello world" then
"again") over a 10-second video yields speech detected, the rounded
words-per-minute quotient, and the dead-air count of its single
4-second gap. -/
theorem analyzePacing_spec_witness :
    analyzePacing (Except.ok (some transcriptW)) 10 =
      ⟨jsRound ((totalWords transcriptW : ℚ) * 60 / 10),
        deadAirEvents transcriptW, true⟩ :=
  (analyzePacing_spec (Except.ok (some transcriptW)) 10 (by norm_num)).2
    transcriptW rfl (by simp [transcriptW])

/-! ## Poll loop: proofs -/

theorem pollAux_res_eq (s : Nat → Except String TaskStatus) :
    ∀ fuel i k, (pollAux s fuel i k).2.1 = pollResOnly s fuel i := by
  intro fuel
  induction fuel with
  | zero =>
    intro i k
    rfl
  | succ n ih =>
    intro i k
    unfold pollAux pollResOnly
    rcases hsi : s i with e | st
    · rfl
    · rcases st with v | _ | _
      · rfl
      · rfl
      · dsimp only
        by_cases hk : k < 15
        · rw [if_pos hk]
          exact ih (i + 1) (k + 1)
        · rw [if_neg hk]
          exact ih (i + 1) k

theorem pollResOnly_ok_iff (s : Nat → Except String TaskStatus) :
    ∀ fuel i v, pollResOnly s fuel i = PollResult.ok v ↔
      ∃ j, j < fuel ∧ s (i + j) = Except.ok (TaskStatus.ready v) ∧
        ∀ m, m < j → s (i + m) = Except.ok TaskStatus.pending := by
  intro fuel
  induction fuel with
  | zero =>
    intro i v
    constructor
    · intro h
      simp [pollResOnly] at h
    · rintro ⟨j, hj, _, _⟩
      omega
  | succ n ih =>
    intro i v
    rcases hsi : s i with e | st
    · constructor
      · intro h
        simp [pollResOnly, hsi] at h
      · rintro ⟨j, hj, hr, hp⟩
        rcases j with _ | j
        · rw [Nat.add_zero, hsi] at hr
          cases hr
        · have h0 := hp 0 (Nat.succ_pos j)
          rw [Nat.add_zero, hsi] at h0
          cases h0
    · rcases st with w | _ | _
      · constructor
        · intro h
          have hw : w = v := by
            simpa [pollResOnly, hsi] using h
          subst hw
          refine ⟨0, Nat.succ_pos n, ?_, fun m hm => absurd hm (Nat.not_lt_zero m)⟩
          rw [Nat.add_zero]
          exact hsi
        · rintro ⟨j, hj, hr, hp⟩
          rcases j with _ | j
          · rw [Nat.add_zero, hsi] at hr
            have hw : w = v := by
              injection hr with h2
              injection h2
            subst hw
            simp [pollResOnly, hsi]
          · have h0 := hp 0 (Nat.succ_pos j)
            rw [Nat.add_zero, hsi] at h0
            cases h0
      · constructor
        · intro h
          simp [pollResOnly, hsi] at h
        · rintro ⟨j, hj, hr, hp⟩
          rcases j with _ | j
          · rw [Nat.add_zero, hsi] at hr
            cases hr
          · have h0 := hp 0 (Nat.succ_pos j)
            rw [Nat.add_zero, hsi] at h0
            cases h0
      · have hred : pollResOnly s (n + 1) i = pollResOnly s n (i + 1) := by
          simp [pollResOnly, hsi]
        rw [hred, ih (i + 1) v]
        constructor
        · rintro ⟨j, hj, hr, hp⟩
          refine ⟨j + 1, by omega, ?_, ?_⟩
          · rw [show i + (j + 1) = i + 1 + j by omega]
            exact hr
          · intro m hm
            rcases m with _ | m
            · rw [Nat.add_zero]
              exact hsi
            · rw [show i + (m + 1) = i + 1 + m by omega]
              exact hp m (by omega)
        · rintro ⟨j, hj, hr, hp⟩
          rcases j with _ | j
          · rw [Nat.add_zero, hsi] at hr
            simp at hr
          · refine ⟨j, by omega, ?_, ?_⟩
            · rw [show i + 1 + j = i + (j + 1) by omega]
              exact hr
            · intro m hm
              have h2 := hp (m + 1) (by omega)
              rw [show i + (m + 1) = i + 1 + m by omega] at h2
              exact h2

theorem pollResOnly_failed_iff (s : Nat → Except String TaskStatus) :
    ∀ fuel i, pollResOnly s fuel i = PollResult.failedStatus ↔
      ∃ j, j < fuel ∧ s (i + j) = Except.ok TaskStatus.failed ∧
        ∀ m, m < j → s (i + m) = Except.ok TaskStatus.pending := by
  intro fuel
  induction fuel with
  | zero =>
    intro i
    constructor
    · intro h
      simp [pollResOnly] at h
    · rintro ⟨j, hj, _, _⟩
      omega
  | succ n ih =>
    intro i
    rcases hsi : s i with e | st
    · constructor
      · intro h
        simp [pollResOnly, hsi] at h
      · rintro ⟨j, hj, hr, hp⟩
        rcases j with _ | j
        · rw [Nat.add_zero, hsi] at hr
          cases hr
        · have h0 := hp 0 (Nat.succ_pos j)
          rw [Nat.add_zero, hsi] at h0
          cases h0
    · rcases st with w | _ | _
      · constructor
        · intro h
          simp [pollResOnly, hsi] at h
        · rintro ⟨j, hj, hr, hp⟩
          rcases j with _ | j
          · rw [Nat.add_zero, hsi] at hr
            simp at hr
          · have h0 := hp 0 (Nat.succ_pos j)
            rw [Nat.add_zero, hsi] at h0
            cases h0
      · constructor
        · intro _
          refine ⟨0, Nat.succ_pos n, ?_, fun m hm => absurd hm (Nat.not_lt_zero m)⟩
          rw [Nat.add_zero]
          exact hsi
        · intro _
          simp [pollResOnly, hsi]
      · have hred : pollResOnly s (n + 1) i = pollResOnly s n (i + 1) := by
          simp [pollResOnly, hsi]
        rw [hred, ih (i + 1)]
        constructor
        · rintro ⟨j, hj, hr, hp⟩
          refine ⟨j + 1, by omega, ?_, ?_⟩
          · rw [show i + (j + 1) = i + 1 + j by omega]
            exact hr
          · intro m hm
            rcases m with _ | m
            · rw [Nat.add_zero]
              exact hsi
            · rw [show i + (m + 1) = i + 1 + m by omega]
              exact hp m (by omega)
        · rintro ⟨j, hj, hr, hp⟩
          rcases j with _ | j
          · rw [Nat.add_zero, hsi] at hr
            simp at hr
          · refine ⟨j, by omega, ?_, ?_⟩
            · rw [show i + 1 + j = i + (j + 1) by omega]
              exact hr
            · intro m hm
              have h2 := hp (m + 1) (by omega)
              rw [show i + (m + 1) = i + 1 + m by omega] at h2
              exact h2

theorem pollResOnly_timeout_iff (s : Nat → Except String TaskStatus) :
    ∀ fuel i, pollResOnly s fuel i = PollResult.timeout ↔
      ∀ j, j < fuel → s (i + j) = Except.ok TaskStatus.pending := by
  intro fuel
  induction fuel with
  | zero =>
    intro i
    constructor
    · intro _ j hj
      omega
    · intro _
      rfl
  | succ n ih =>
    intro i
    rcases hsi : s i with e | st
    · constructor
      · intro h
        simp [pollResOnly, hsi] at h
      · intro hall
        have h0 := hall 0 (Nat.succ_pos n)
        rw [Nat.add_zero, hsi] at h0
        cases h0
    · rcases st with w | _ | _
      · constructor
        · intro h
          simp [pollResOnly, hsi] at h
        · intro hall
          have h0 := hall 0 (Nat.succ_pos n)
          rw [Nat.add_zero, hsi] at h0
          simp at h0
      · constructor
        · intro h
          simp [pollResOnly, hsi] at h
        · intro hall
          have h0 := hall 0 (Nat.succ_pos n)
          rw [Nat.add_zero, hsi] at h0
          simp at h0
      · have hred : pollResOnly s (n + 1) i = pollResOnly s n (i + 1) := by
          simp [pollResOnly, hsi]
        rw [hred, ih (i + 1)]
        constructor
        · intro hall j hj
          rcases j with _ | j
          · rw [Nat.add_zero]
            exact hsi
          · rw [show i + (j + 1) = i + 1 + j by omega]
            exact hall j (by omega)
        · intro hall j hj
          have h2 := hall (j + 1) (by omega)
          rw [show i + (j + 1) = i + 1 + j by omega] at h2
          exact h2

/-- C1.  The 60-attempt poll loop returns a video identifier iff some
executed poll reports `ready` (i.e. some poll among the first 60
reports `ready` with every earlier poll non-terminal); it raises the
distinct indexing-failure error iff some poll reports `failed` before
any `ready`; and it raises the timeout error iff all 60 polls report a
non-terminal status. -/
theorem awaitReady_spec (s : Nat → Except String TaskStatus) :
    (∀ v, awaitReady s = PollResult.ok v ↔
      ∃ j, j < 60 ∧ s j = Except.ok (TaskStatus.ready v) ∧
        ∀ m, m < j → s m = Except.ok TaskStatus.pending)
  ∧ (awaitReady s = PollResult.failedStatus ↔
      ∃ j, j < 60 ∧ s j = Except.ok TaskStatus.failed ∧
        ∀ m, m < j → s m = Except.ok TaskStatus.pending)
  ∧ (awaitReady s = PollResult.timeout ↔
      ∀ j, j < 60 → s j = Except.ok TaskStatus.pending) := by
  unfold awaitReady
  rw [pollAux_res_eq]
  refine ⟨fun v => ?_, ?_, ?_⟩
  · rw [pollResOnly_ok_iff]
    simp [Nat.zero_add]
  · rw [pollResOnly_failed_iff]
    simp [Nat.zero_add]
  · rw [pollResOnly_timeout_iff]
    simp [Nat.zero_add]

/-- Witness for C1: a task whose very first poll reports `ready`
yields its video identifier. -/
theorem awaitReady_spec_witness :
    awaitReady (fun _ => Except.ok (TaskStatus.ready "vid-1")) =
      PollResult.ok "vid-1" :=
  ((awaitReady_spec (fun _ => Except.ok (TaskStatus.ready "vid-1"))).1
    "vid-1").mpr
    ⟨0, by omega, rfl, fun m hm => absurd hm (Nat.not_lt_zero m)⟩

/-! ## Event trace: proofs -/

theorem pollFrac_mono {a b : Nat} (h : a ≤ b) : pollFrac a ≤ pollFrac b := by
  unfold pollFrac
  have hc : (a : ℚ) ≤ (b : ℚ) := by exact_mod_cast h
  have h100 : (0 : ℚ) < 100 := by norm_num
  rw [div_le_div_iff₀ h100 h100]
  linarith

theorem pollAux_events (s : Nat → Except String TaskStatus) :
    ∀ fuel i k, k ≤ 15 →
      ∃ n, (pollAux s fuel i k).1 =
        (List.range n).map
          (fun j => SSEEvent.progress pollMsg (pollFrac (k + j + 1))) ∧
        k + n ≤ 15 := by
  intro fuel
  induction fuel with
  | zero =>
    intro i k hk
    exact ⟨0, by simp [pollAux], by omega⟩
  | succ m ih =>
    intro i k hk
    rcases hsi : s i with e | st
    · exact ⟨0, by simp [pollAux, hsi], by omega⟩
    · rcases st with v | _ | _
      · exact ⟨0, by simp [pollAux, hsi], by omega⟩
      · exact ⟨0, by simp [pollAux, hsi], by omega⟩
      · by_cases hk15 : k < 15
        · obtain ⟨n2, hev, hn2⟩ := ih (i + 1) (k + 1) (by omega)
          refine ⟨n2 + 1, ?_, by omega⟩
          simp only [pollAux, hsi]
          rw [if_pos hk15]
          dsimp only
          rw [hev, List.range_succ_eq_map]
          simp only [List.map_cons, List.map_map]
          congr 1
          apply List.map_congr_left
          intro j hj
          show SSEEvent.progress pollMsg (pollFrac (k + 1 + j + 1)) =
            SSEEvent.progress pollMsg (pollFrac (k + (j + 1) + 1))
          rw [show k + 1 + j + 1 = k + (j + 1) + 1 by omega]
        · obtain ⟨n2, hev, hn2⟩ := ih (i + 1) k hk
          refine ⟨n2, ?_, hn2⟩
          simp only [pollAux, hsi]
          rw [if_neg hk15]
          dsimp only
          exact hev

theorem pollAux_events0 (s : Nat → Except String TaskStatus) :
    ∃ n, (pollAux s 60 0 0).1 =
      (List.range n).map
        (fun j => SSEEvent.progress pollMsg (pollFrac (j + 1))) ∧
      n ≤ 15 := by
  obtain ⟨n, hev, hn⟩ := pollAux_events s 60 0 0 (by omega)
  refine ⟨n, ?_, by omega⟩
  rw [hev]
  apply List.map_congr_left
  intro j hj
  rw [show 0 + j + 1 = j + 1 by omega]

theorem filterMap_fracOf_progressMap (msg : String) (g : Nat → ℚ)
    (l : List Nat) :
    (l.map fun j => SSEEvent.progress msg (g j)).filterMap fracOf =
      l.map g := by
  induction l with
  | nil => rfl
  | cons a tl ih => simp [fracOf, ih]

theorem chain_le_pollTrace (n : Nat) (hn : n ≤ 15) (rest : List ℚ)
    (hrest : List.Chain' (fun a b => a ≤ b) rest)
    (hhead : ∀ y ∈ rest.head?, (9 : ℚ) / 20 ≤ y) :
    List.Chain' (fun a b => a ≤ b)
      ((3 / 10 : ℚ) :: ((List.range n).map fun j => pollFrac (j + 1)) ++ rest)
    := by
  rw [List.cons_append, List.chain'_cons']
  constructor
  · intro y hy
    rcases n with _ | m
    · simp only [List.range_zero, List.map_nil, List.nil_append] at hy
      have h2 := hhead y hy
      linarith
    · rw [List.range_succ_eq_map] at hy
      simp only [List.map_cons, List.cons_append, List.head?_cons,
        Option.mem_def, Option.some.injEq] at hy
      subst hy
      norm_num [pollFrac]
  · rw [List.chain'_append]
    refine ⟨?_, hrest, ?_⟩
    · rw [List.chain'_map]
      rcases n with _ | m
      · simp
      · rw [List.chain'_range_succ]
        intro j hj
        exact pollFrac_mono (by omega)
    · intro x hx y hy
      have hx2 := List.mem_of_mem_getLast? hx
      simp only [List.mem_map, List.mem_range] at hx2
      obtain ⟨j, hj, rfl⟩ := hx2
      have h1 : pollFrac (j + 1) ≤ pollFrac 15 := pollFrac_mono (by omega)
      have h2 := hhead y hy
      have h3 : pollFrac 15 = 9 / 20 := by norm_num [pollFrac]
      linarith

theorem trace_good (n : Nat) (hn : n ≤ 15) (sfx : List SSEEvent) (t : SSEEvent)
    (ht : isTerminalEv t = true)
    (hsfx : ∀ e ∈ sfx, isTerminalEv e = false)
    (hchain : List.Chain' (fun a b => a ≤ b) (sfx.filterMap fracOf))
    (hhead : ∀ y ∈ (sfx.filterMap fracOf).head?, (9 : ℚ) / 20 ≤ y) :
    List.Chain' (fun a b => a ≤ b)
      ((SSEEvent.progress pollMsg (3 / 10) ::
        ((List.range n).map fun j => SSEEvent.progress pollMsg (pollFrac (j + 1)))
        ++ (sfx ++ [t])).filterMap fracOf)
  ∧ ∃ pre t2,
      (SSEEvent.progress pollMsg (3 / 10) ::
        ((List.range n).map fun j => SSEEvent.progress pollMsg (pollFrac (j + 1)))
        ++ (sfx ++ [t])) = pre ++ [t2] ∧ isTerminalEv t2 = true ∧
      ∀ e ∈ pre, isTerminalEv e = false := by
  have htfrac : fracOf t = none := by
    cases t
    · simp [isTerminalEv] at ht
    · rfl
    · rfl
  constructor
  · have hmap : ((List.range n).map fun j =>
        SSEEvent.progress pollMsg (pollFrac (j + 1))).filterMap fracOf =
        (List.range n).map fun j => pollFrac (j + 1) :=
      filterMap_fracOf_progressMap pollMsg _ _
    have hfr : ((SSEEvent.progress pollMsg (3 / 10) ::
        ((List.range n).map fun j => SSEEvent.progress pollMsg (pollFrac (j + 1)))
        ++ (sfx ++ [t])).filterMap fracOf) =
        (3 / 10 : ℚ) :: ((List.range n).map fun j => pollFrac (j + 1))
          ++ sfx.filterMap fracOf := by
      have hp : fracOf (SSEEvent.progress pollMsg (3 / 10)) = some (3 / 10) :=
        rfl
      simp only [List.filterMap_append, List.filterMap_cons, htfrac, hp, hmap,
        List.filterMap_nil, List.append_nil]
    rw [hfr]
    exact chain_le_pollTrace n hn (sfx.filterMap fracOf) hchain hhead
  · refine ⟨SSEEvent.progress pollMsg (3 / 10) ::
      ((List.range n).map fun j => SSEEvent.progress pollMsg (pollFrac (j + 1)))
      ++ sfx, t, ?_, ht, ?_⟩
    · simp [List.append_assoc]
    · intro e he
      simp only [List.mem_cons, List.mem_append, List.mem_map,
        List.mem_range] at he
      rcases he with he1 | hes
      · rcases he1 with rfl | ⟨j, hj, hje⟩
        · rfl
        · subst hje
          rfl
      · exact hsfx e hes

/-- C2.  Within one run, the fractions of the emitted progress events
are monotonically non-decreasing, and the event list ends in exactly
one terminal event (`complete` or `error`): every event before the last
is a non-terminal progress event, and nothing follows the terminal
event. -/
theorem progressEvents_monotone_terminal (env : RunInput) :
    List.Chain' (fun a b => a ≤ b)
      ((analyzeVideo env).events.filterMap fracOf)
  ∧ ∃ pre t, (analyzeVideo env).events = pre ++ [t] ∧
      isTerminalEv t = true ∧ ∀ e ∈ pre, isTerminalEv e = false := by
  unfold analyzeVideo
  by_cases hg : (env.hasFile && env.indexReady) = true
  case neg =>
    rw [if_neg hg]
    constructor
    · simp [fracOf]
    · exact ⟨[], SSEEvent.error "System not ready or missing video file",
        rfl, rfl, by simp⟩
  case pos =>
    rw [if_pos hg]
    unfold runPipeline
    obtain ⟨n, hev, hn⟩ := pollAux_events0 env.pollStatus
    rcases htc : env.taskCreate with e | u
    · dsimp only
      constructor
      · simp [fracOf, List.filterMap_cons]
      · exact ⟨[SSEEvent.progress pollMsg (3 / 10)], SSEEvent.error (errMsg e),
          rfl, rfl, by simp [isTerminalEv]⟩
    · dsimp only
      rcases hpr : (pollAux env.pollStatus 60 0 0).2.1 with v | _ | _ | e2
      · -- ready: fan out on the downstream remote calls
        dsimp only
        rcases han : env.analyzeCall with e3 | raw
        · dsimp only
          rw [hev]
          exact trace_good n hn
            [SSEEvent.progress "Measuring Retention Hooks..." (1 / 2)]
            (SSEEvent.error (errMsg e3)) rfl (by simp [isTerminalEv])
            (by simp [fracOf]) (by simp [fracOf]; norm_num)
        · rcases hgi : env.gistCall with e3 | detected
          · dsimp only
            rw [hev]
            exact trace_good n hn
              [SSEEvent.progress "Measuring Retention Hooks..." (1 / 2)]
              (SSEEvent.error (errMsg e3)) rfl (by simp [isTerminalEv])
              (by simp [fracOf]) (by simp [fracOf]; norm_num)
          · dsimp only
            rcases hge : env.geminiCall with e3 | text
            · dsimp only
              rw [hev]
              exact trace_good n hn
                [SSEEvent.progress "Measuring Retention Hooks..." (1 / 2),
                 SSEEvent.progress "Analyzing Audio Mixing..." (7 / 10),
                 SSEEvent.progress "Calculating Viral Potential..." (9 / 10)]
                (SSEEvent.error (errMsg e3)) rfl (by simp [isTerminalEv])
                (by simp [fracOf, List.chain'_cons]; norm_num)
                (by simp [fracOf]; norm_num)
            · dsimp only
              rw [hev]
              exact trace_good n hn
                [SSEEvent.progress "Measuring Retention Hooks..." (1 / 2),
                 SSEEvent.progress "Analyzing Audio Mixing..." (7 / 10),
                 SSEEvent.progress "Calculating Viral Potential..." (9 / 10)]
                (SSEEvent.complete
                  ((env.parseScore text).getD parseFallback).overall
                  (mergeHashtags detected
                    ((env.parseScore text).getD parseFallback).metadataHashtags))
                rfl (by simp [isTerminalEv])
                (by simp [fracOf, List.chain'_cons]; norm_num)
                (by simp [fracOf]; norm_num)
      · dsimp only
        rw [hev]
        exact trace_good n hn [] (SSEEvent.error "Twelve Labs processing failed")
          rfl (by simp) (by simp) (by simp)
      · dsimp only
        rw [hev]
        exact trace_good n hn [] (SSEEvent.error "Processing timeout")
          rfl (by simp) (by simp) (by simp)
      · dsimp only
        rw [hev]
        exact trace_good n hn [] (SSEEvent.error (errMsg e2))
          rfl (by simp) (by simp) (by simp)

/-- Witness for C2 at a concrete run: the event fractions are
non-decreasing and the trace ends in a single terminal event. -/
theorem progressEvents_monotone_terminal_witness :
    List.Chain' (fun a b => a ≤ b)
      ((analyzeVideo envParseFail).events.filterMap fracOf)
  ∧ ∃ pre t, (analyzeVideo envParseFail).events = pre ++ [t] ∧
      isTerminalEv t = true ∧ ∀ e ∈ pre, isTerminalEv e = false :=
  progressEvents_monotone_terminal envParseFail

/-- C7.  When every remote call succeeds but the scoring response
cannot be parsed (or fails validation), the run substitutes the
deterministic default report with `overall = 50` (whose missing
metadata makes the final hashtags the detected ones, capped at 10) and
still ends in a `complete` event — never in an `error` event. -/
theorem scoring_fallback_completes (env : RunInput) (vid raw text : String)
    (detected : List String)
    (hf : env.hasFile = true) (hi : env.indexReady = true)
    (htc : env.taskCreate = Except.ok ())
    (hpoll : (pollAux env.pollStatus 60 0 0).2.1 = PollResult.ok vid)
    (han : env.analyzeCall = Except.ok raw)
    (hgist : env.gistCall = Except.ok detected)
    (hgem : env.geminiCall = Except.ok text)
    (hparse : env.parseScore text = none) :
    ∃ pre, (analyzeVideo env).events =
        pre ++ [SSEEvent.complete 50 (detected.take 10)] ∧
      ∀ e ∈ pre, isTerminalEv e = false := by
  unfold analyzeVideo
  rw [if_pos (by rw [hf, hi]; rfl)]
  unfold runPipeline
  rw [htc]
  dsimp only
  rw [hpoll]
  dsimp only
  rw [han, hgist]
  dsimp only
  rw [hgem]
  dsimp only
  rw [hparse]
  have hm : mergeHashtags detected none = detected.take 10 := by
    simp [mergeHashtags]
  obtain ⟨n, hev, hn⟩ := pollAux_events0 env.pollStatus
  rw [hev]
  refine ⟨SSEEvent.progress pollMsg (3 / 10) ::
    ((List.range n).map fun j => SSEEvent.progress pollMsg (pollFrac (j + 1)))
    ++ [SSEEvent.progress "Measuring Retention Hooks..." (1 / 2),
        SSEEvent.progress "Analyzing Audio Mixing..." (7 / 10),
        SSEEvent.progress "Calculating Viral Potential..." (9 / 10)],
    ?_, ?_⟩
  · simp [List.append_assoc, hm, parseFallback]
  · intro e he
    simp only [List.mem_cons, List.mem_append, List.mem_map,
      List.mem_range] at he
    rcases he with he1 | hes
    · rcases he1 with rfl | ⟨j, hj, hje⟩
      · rfl
      · subst hje
        rfl
    · rcases hes with rfl | rfl | rfl | h0
      · rfl
      · rfl
      · rfl
      · cases h0

/-- Witness for C7: a run whose Gemini response fails to parse ends in
a `complete` event carrying `overall = 50` and the detected hashtags. -/
theorem scoring_fallback_completes_witness :
    ∃ pre, (analyzeVideo envParseFail).events =
        pre ++ [SSEEvent.complete 50 (["#fitness", "#gym"].take 10)] ∧
      ∀ e ∈ pre, isTerminalEv e = false :=
  scoring_fallback_completes envParseFail "vid-1" "raw analysis" "not json"
    ["#fitness", "#gym"] rfl rfl rfl rfl rfl rfl rfl rfl

end VidSearch
